import Mathlib

/-!
# Verification of the AEM analytics dashboard data pipeline

A shallow embedding of the data-handling core of the dashboard
(`UploadTab.processExcelFile`, `sampleDataLoader.loadSampleData`,
`DashboardTab.processDashboardData`, the chart frequency counters,
`DataTableTab.sortedData` / `downloadCSV` / `downloadJSON`), together with
theorems settling the specification's claims about it.

JavaScript numbers that arise from parsing cell text are modelled exactly as
rationals (plus the two infinities); IEEE rounding and overflow are not
modelled, and none of the statements below depend on them.  JavaScript string
comparison (`localeCompare`) is modelled as lexicographic comparison by code
point, which agrees with the default collation on every concrete string used
in a theorem here.
-/

namespace AemDash

/-! ## JavaScript string and number primitives -/

/-- JavaScript whitespace characters recognised by `parseFloat`, `Number`
and `String.prototype.trim` (the common subset exercised here). -/
def isJsWs (c : Char) : Bool :=
  c = ' ' || c = '\t' || c = '\n' || c = '\r' ||
  c = Char.ofNat 11 || c = Char.ofNat 12 || c = Char.ofNat 160

/-- Trim JavaScript whitespace from both ends of a character list. -/
def trimJsChars (cs : List Char) : List Char :=
  ((cs.dropWhile isJsWs).reverse.dropWhile isJsWs).reverse

/-- Model of `String.prototype.trim`. -/
def trimJS (s : String) : String :=
  String.mk (trimJsChars s.data)

/-- Read a list of decimal digit characters as a natural number. -/
def digitsToNat (ds : List Char) : Nat :=
  ds.foldl (fun n c => n * 10 + (c.toNat - 48)) 0

/-- A JavaScript number that is not `NaN`: a finite value (modelled as an
exact rational) or one of the two infinities. -/
inductive JsNum where
  | fin (q : ℚ)
  | posInf
  | negInf
deriving DecidableEq, Repr

/-- Exponent part accepted by `parseFloat` after the mantissa: `e`/`E`,
an optional sign and at least one digit; anything else contributes
nothing (the longest valid prefix ends before it). -/
def parseFloatExp : List Char → Int
  | c :: rest =>
    if c = 'e' || c = 'E' then
      match rest with
      | '+' :: ds =>
        let d := ds.takeWhile Char.isDigit
        if d.isEmpty then 0 else (digitsToNat d : Int)
      | '-' :: ds =>
        let d := ds.takeWhile Char.isDigit
        if d.isEmpty then 0 else -(digitsToNat d : Int)
      | ds =>
        let d := ds.takeWhile Char.isDigit
        if d.isEmpty then 0 else (digitsToNat d : Int)
    else 0
  | [] => 0

/-- The exact rational `±digits × 10^e`, for a decimal literal with
mantissa digit list `digits` (integer and fraction digits concatenated)
and net decimal exponent `e` (exponent part minus fraction length).
Built from integer arithmetic and `mkRat` only. -/
def decScaled (neg : Bool) (digits : List Char) (e : Int) : ℚ :=
  let sn : Int :=
    if neg then -(digitsToNat digits : Int) else (digitsToNat digits : Int)
  match e with
  | Int.ofNat k => mkRat (sn * ((10 ^ k : Nat) : Int)) 1
  | Int.negSucc k => mkRat sn (10 ^ (k + 1))

/-- Model of JavaScript `parseFloat` on a character list: skip leading
whitespace, take an optional sign, then the longest prefix that is a valid
`StrDecimalLiteral` (`Infinity`, or digits with an optional fraction and
exponent).  `none` models `NaN`. -/
def parseFloatChars (cs0 : List Char) : Option JsNum :=
  let cs1 := cs0.dropWhile isJsWs
  let sgnNeg : Bool :=
    match cs1 with
    | '-' :: _ => true
    | _ => false
  let cs :=
    match cs1 with
    | '+' :: rest => rest
    | '-' :: rest => rest
    | _ => cs1
  if cs.take 8 = "Infinity".data then
    some (if sgnNeg then JsNum.negInf else JsNum.posInf)
  else
    let intD := cs.takeWhile Char.isDigit
    let rest1 := cs.dropWhile Char.isDigit
    let fracD :=
      match rest1 with
      | '.' :: r => r.takeWhile Char.isDigit
      | _ => []
    let rest2 :=
      match rest1 with
      | '.' :: r => r.dropWhile Char.isDigit
      | _ => rest1
    if intD.isEmpty && fracD.isEmpty then none
    else
      some (JsNum.fin
        (decScaled sgnNeg (intD ++ fracD) (parseFloatExp rest2 - (fracD.length : Int))))

/-- Model of JavaScript `parseFloat` on a string. -/
def parseFloat (s : String) : Option JsNum :=
  parseFloatChars s.data

/-- Read the whole character list in the given base, `none` if it is empty
or contains an invalid digit. -/
def parseRadixAll (digVal : Char → Option Nat) (base : Nat) (ds : List Char) : Option Nat :=
  if ds.isEmpty then none
  else
    ds.foldl
      (fun acc c =>
        match acc, digVal c with
        | some n, some d => some (n * base + d)
        | _, _ => none)
      (some 0)

/-- Hexadecimal digit value. -/
def hexDigitVal (c : Char) : Option Nat :=
  if c.isDigit then some (c.toNat - 48)
  else if 'a' ≤ c && c ≤ 'f' then some (c.toNat - 87)
  else if 'A' ≤ c && c ≤ 'F' then some (c.toNat - 55)
  else none

/-- Octal digit value. -/
def octDigitVal (c : Char) : Option Nat :=
  if '0' ≤ c && c ≤ '7' then some (c.toNat - 48) else none

/-- Binary digit value. -/
def binDigitVal (c : Char) : Option Nat :=
  if c = '0' then some 0 else if c = '1' then some 1 else none

/-- An unsigned decimal literal (with the sign passed in) that must
consume the whole character list (the `StrUnsignedDecimalLiteral`
production minus `Infinity`). -/
def jsDecFullUnsigned (neg : Bool) (cs : List Char) : Option ℚ :=
  let intD := cs.takeWhile Char.isDigit
  let rest1 := cs.dropWhile Char.isDigit
  let fracD :=
    match rest1 with
    | '.' :: r => r.takeWhile Char.isDigit
    | _ => []
  let rest2 :=
    match rest1 with
    | '.' :: r => r.dropWhile Char.isDigit
    | _ => rest1
  if intD.isEmpty && fracD.isEmpty then none
  else
    let digits := intD ++ fracD
    let scale : Int := (fracD.length : Int)
    match rest2 with
    | [] => some (decScaled neg digits (-scale))
    | e :: r3 =>
      if e = 'e' || e = 'E' then
        match r3 with
        | '+' :: ds =>
          if !ds.isEmpty && ds.all Char.isDigit then
            some (decScaled neg digits ((digitsToNat ds : Int) - scale))
          else none
        | '-' :: ds =>
          if !ds.isEmpty && ds.all Char.isDigit then
            some (decScaled neg digits (-(digitsToNat ds : Int) - scale))
          else none
        | ds =>
          if !ds.isEmpty && ds.all Char.isDigit then
            some (decScaled neg digits ((digitsToNat ds : Int) - scale))
          else none
      else none

/-- A signed decimal literal or `Infinity`, consuming the whole list. -/
def jsDecFull (cs : List Char) : Option JsNum :=
  let sgnNeg : Bool :=
    match cs with
    | '-' :: _ => true
    | _ => false
  let body :=
    match cs with
    | '+' :: rest => rest
    | '-' :: rest => rest
    | _ => cs
  if body = "Infinity".data then
    some (if sgnNeg then JsNum.negInf else JsNum.posInf)
  else
    (jsDecFullUnsigned sgnNeg body).map JsNum.fin

/-- Model of JavaScript `Number(string)` (`ToNumber` on strings): trim,
empty means `0`, otherwise an exact decimal / `Infinity` / `0x`-, `0o`-,
`0b`-prefixed literal.  `none` models `NaN`. -/
def jsToNumber (s : String) : Option JsNum :=
  let cs := trimJsChars s.data
  if cs.isEmpty then some (JsNum.fin 0)
  else
    match cs with
    | '0' :: c :: rest =>
      if c = 'x' || c = 'X' then
        (parseRadixAll hexDigitVal 16 rest).map fun n => JsNum.fin (mkRat n 1)
      else if c = 'o' || c = 'O' then
        (parseRadixAll octDigitVal 8 rest).map fun n => JsNum.fin (mkRat n 1)
      else if c = 'b' || c = 'B' then
        (parseRadixAll binDigitVal 2 rest).map fun n => JsNum.fin (mkRat n 1)
      else jsDecFull cs
    | _ => jsDecFull cs

/-- Model of the global `isFinite(value)` applied to a string: the string
coerces via `Number` to a finite value. -/
def jsIsFiniteStr (s : String) : Bool :=
  match jsToNumber s with
  | some (JsNum.fin _) => true
  | _ => false

/-- Sign of the JavaScript comparator value `x - y` for two non-`NaN`
numbers; `Infinity - Infinity` is `NaN`, which `Array.prototype.sort`
treats as `+0`. -/
def jsNumCmp : JsNum → JsNum → Int
  | JsNum.fin p, JsNum.fin q => if p < q then -1 else if q < p then 1 else 0
  | JsNum.posInf, JsNum.posInf => 0
  | JsNum.negInf, JsNum.negInf => 0
  | JsNum.posInf, _ => 1
  | JsNum.negInf, _ => -1
  | JsNum.fin _, JsNum.posInf => -1
  | JsNum.fin _, JsNum.negInf => 1

/-- Lexicographic three-way comparison of character lists by code point. -/
def charListCmp : List Char → List Char → Int
  | [], [] => 0
  | [], _ :: _ => -1
  | _ :: _, [] => 1
  | a :: as, b :: bs =>
    if a.toNat < b.toNat then -1
    else if b.toNat < a.toNat then 1
    else charListCmp as bs

/-- Sign model of `String.prototype.localeCompare`: lexicographic
comparison by code point. -/
def strCmp (a b : String) : Int :=
  charListCmp a.data b.data

/-! ## JavaScript objects as ordered association lists

A JavaScript object is modelled as an association list in property-creation
order.  Assigning to an existing key updates it in place; assigning a fresh
key appends it.  Enumeration (`Object.keys` / `Object.entries`) lists
array-index-like keys first in ascending numeric order, then the remaining
keys in creation order. -/

/-- Model of `obj[k] = v`. -/
def jsObjectSet {α : Type} (k : String) (v : α) : List (String × α) → List (String × α)
  | [] => [(k, v)]
  | (k', v') :: rest => if k' = k then (k, v) :: rest else (k', v') :: jsObjectSet k v rest

/-- Model of `obj[k]`, with `none` modelling `undefined`. -/
def jsGet {α : Type} (k : String) : List (String × α) → Option α
  | [] => none
  | (k', v) :: rest => if k' = k then some v else jsGet k rest

/-- The keys of an object in property-creation order. -/
def keysOf {α : Type} (m : List (String × α)) : List String :=
  m.map Prod.fst

/-- A string that is a canonical array index (`"0"`, or digits without a
leading zero, below `2^32 - 1`): such property keys enumerate first, in
ascending numeric order. -/
def isArrayIndexKey (s : String) : Bool :=
  match s.data with
  | [] => false
  | c :: cs =>
    c.isDigit && cs.all Char.isDigit && (c != '0' || cs.isEmpty) &&
      decide (digitsToNat (c :: cs) < 4294967295)

/-- Numeric value of an array-index-like key. -/
def keyNatVal (s : String) : Nat :=
  digitsToNat s.data

/-- Enumeration order of the keys of an object: array-index-like keys
ascending, then the rest in creation order (`Object.keys`). -/
def jsKeysOrder (ks : List String) : List String :=
  (ks.filter isArrayIndexKey).insertionSort (fun a b => keyNatVal a ≤ keyNatVal b) ++
    ks.filter (fun k => !isArrayIndexKey k)

/-- Model of `Object.keys`. -/
def jsKeys {α : Type} (m : List (String × α)) : List String :=
  jsKeysOrder (keysOf m)

/-- Model of `Object.entries`: the object's pairs, array-index-like keys
first in ascending numeric order, then the rest in creation order. -/
def jsEntries {α : Type} (m : List (String × α)) : List (String × α) :=
  (m.filter (fun p => isArrayIndexKey p.1)).insertionSort
      (fun p q => keyNatVal p.1 ≤ keyNatVal q.1) ++
    m.filter (fun p => !isArrayIndexKey p.1)

/-! ## Cells and the upload normalizer (`UploadTab.processExcelFile`)

A raw worksheet cell as delivered by the `xlsx` decoder with `header: 1`:
absent cells are `undefined`, present cells are strings, numbers (integral
numbers suffice for every statement here) or booleans. -/

inductive Cell where
  | undef
  | str (s : String)
  | num (n : Int)
  | bool (b : Bool)
deriving DecidableEq, Repr

/-- JavaScript truthiness of a cell value. -/
def Cell.truthy : Cell → Bool
  | Cell.undef => false
  | Cell.str s => !s.isEmpty
  | Cell.num n => n != 0
  | Cell.bool b => b

/-- Model of `row[index] || ''`: the cell itself when truthy, the empty string
otherwise. -/
def jsOrEmpty (c : Cell) : Cell :=
  if c.truthy then c else Cell.str ""

/-- The string a cell turns into when used as a property key. -/
def cellKey : Cell → String
  | Cell.undef => "undefined"
  | Cell.str s => s
  | Cell.num n => toString n
  | Cell.bool b => if b then "true" else "false"

/-- The row filter of `processExcelFile`:
`row.some(cell => cell !== undefined && cell !== '')`. -/
def keepRowUpload (row : List Cell) : Bool :=
  row.any (fun c => c != Cell.undef && c != Cell.str "")

/-- Build one record object from a header list and a data row, assigning
`obj[headers[i]] = row[i] || ''` left to right (a generic value function
so the sample-data variant can share it). -/
def buildObj {α : Type} (headers : List String) (val : Nat → α) : List (String × α) :=
  headers.enum.foldl (fun obj p => jsObjectSet p.2 (val p.1) obj) []

/-- The record built by `processExcelFile` for one surviving row. -/
def buildRecordUpload (headers : List String) (row : List Cell) : List (String × Cell) :=
  buildObj headers (fun i => jsOrEmpty (row.getD i Cell.undef))

/-- The per-sheet normalization of `processExcelFile`: first row as headers,
remaining rows filtered for some non-`undefined`, non-`''` cell, then
zipped into records. -/
def normalizeUploadSheet : List (List Cell) → List (List (String × Cell))
  | [] => []
  | headerRow :: rows =>
    (rows.filter keepRowUpload).map (buildRecordUpload (headerRow.map cellKey))

/-- Model of `Object.keys(currentData[0])` (`DataTableTab.availableColumns`). -/
def availableColumns (data : List (List (String × Cell))) : List String :=
  match data with
  | [] => []
  | r :: _ => jsKeys r

/-! ## The sample-data loader (`sampleDataLoader.loadSampleData`)

With `raw: false, defval: ''` every decoded cell is a string and absent
cells read back as `''`; `row[index] || ''` is then the identity on the
defaulted value, so record values are `row.getD i ""`. -/

/-- The record built by `loadSampleData` for one row. -/
def buildRecordSample (headers : List String) (row : List String) : List (String × String) :=
  buildObj headers (fun i => row.getD i "")

/-- The row filter of `loadSampleData`:
`Object.values(row).some(value => value && value.toString().trim())`,
applied to the already-built record. -/
def sampleKeepRecord (r : List (String × String)) : Bool :=
  r.any (fun kv => trimJS kv.2 != "")

/-- The per-sheet normalization of `loadSampleData`: build all records, then
drop those whose every value is blank after trimming. -/
def loadSampleSheet (headers : List String) (rows : List (List String)) :
    List (List (String × String)) :=
  (rows.map (buildRecordSample headers)).filter sampleKeepRecord

/-! ## Upload outcome (`processExcelFile`'s success and failure paths) -/

/-- The state the upload tab threads through `onDataUpload` / `setError`:
the currently installed workbook (sheet name to records) and the visible
error message. -/
structure UploadState where
  uploadedData : Option (List (String × List (List (String × Cell))))
  errorMsg : Option String
deriving Repr

/-- One run of `processExcelFile`'s reader callback: a successful decode
builds every sheet (sheets whose `sheet_to_json` output is empty are
skipped) and installs the result wholesale; a thrown decode error only
sets the error message. -/
def processUploadResult (st : UploadState)
    (decoded : Except String (List (String × List (List Cell)))) : UploadState :=
  match decoded with
  | Except.error msg =>
    { st with errorMsg := some ("Error processing file: " ++ msg) }
  | Except.ok sheets =>
    { uploadedData :=
        some ((sheets.filter (fun sh => sh.2.length > 0)).map
          (fun sh => (sh.1, normalizeUploadSheet sh.2))),
      errorMsg := none }

/-! ## The dashboard classifier (`processDashboardData`)

Records on the dashboard/table side are string-valued (the sample loader
produces strings, and only string-valued cells are exercised by the claims
about this side).  A missing key reads as `undefined`; every use below
first coerces through `parseFloat` / `|| ''`, for which the empty string
behaves identically, so lookups default to `""`. -/

/-- Lookup of a record value, defaulting a missing key to `""`. -/
def recGetS (r : List (String × String)) (k : String) : String :=
  (jsGet k r).getD ""

/-- The per-cell test of `processDashboardData`:
`!isNaN(parseFloat(row[col])) && isFinite(row[col])`. -/
def numericCellCheck (v : String) : Bool :=
  (parseFloat v).isSome && jsIsFiniteStr v

/-- The `numericColumns` filter: the columns for which some record passes
`numericCellCheck`. -/
def numericColumns (cols : List String) (data : List (List (String × String))) :
    List String :=
  cols.filter (fun col => data.any (fun r => numericCellCheck (recGetS r col)))

/-- The `categoricalColumns` filter: not numeric, and some record has a non-blank
value. -/
def categoricalColumns (cols : List String) (data : List (List (String × String))) :
    List String :=
  cols.filter (fun col =>
    !(numericColumns cols data).contains col &&
      data.any (fun r => trimJS (recGetS r col) != ""))

/-! ## The chart frequency counter (`getCompetencyChart` / `getCategoryChart`) -/

/-- Model of `counts[value] = (counts[value] || 0) + 1`. -/
def bumpCount (k : String) : List (String × Nat) → List (String × Nat)
  | [] => [(k, 1)]
  | (k', n) :: rest => if k' = k then (k, n + 1) :: rest else (k', n) :: bumpCount k rest

/-- One iteration of the `data.forEach` counting loop: the record's value
at `col` is stringified and trimmed, a blank is skipped, anything else
bumps its counter. -/
def freqStep (col : String) (m : List (String × Nat)) (r : List (String × String)) :
    List (String × Nat) :=
  let v := trimJS (recGetS r col)
  if v = "" then m else bumpCount v m

/-- The `counts` object after the `data.forEach` loop. -/
def freqCounts (data : List (List (String × String))) (col : String) :
    List (String × Nat) :=
  data.foldl (freqStep col) []

/-- The comparator relation for `.sort(([,a],[,b]) => b - a)`: the earlier
entry stays first exactly when the comparator is non-positive, i.e. its
count is at least the later one's. -/
def freqLe (p q : String × Nat) : Prop :=
  q.2 ≤ p.2

instance : DecidableRel freqLe := fun p q => Nat.decLe q.2 p.2

/-- The chart pipeline: `Object.entries(counts).sort(([,a],[,b]) => b - a)
.slice(0, topN)`. -/
def frequencyCode (data : List (List (String × String))) (col : String) (topN : Nat) :
    List (String × Nat) :=
  ((jsEntries (freqCounts data col)).insertionSort freqLe).take topN

/-- Deduplication keeping first occurrences, with the set of already-seen
values as an accumulator (structural recursion). -/
def dedupFirstAux : List String → List String → List String
  | _, [] => []
  | seen, x :: xs =>
    if x ∈ seen then dedupFirstAux seen xs
    else x :: dedupFirstAux (x :: seen) xs

/-- The distinct values of a list, in order of first appearance. -/
def dedupFirst (xs : List String) : List String :=
  dedupFirstAux [] xs

/-- The trimmed values of a column with blanks removed, in record order. -/
def colValues (data : List (List (String × String))) (col : String) : List String :=
  (data.map (fun r => trimJS (recGetS r col))).filter (fun v => v ≠ "")

/-- How many records of `data` have trimmed value `l` at `col`. -/
def countVal (data : List (List (String × String))) (col : String) (l : String) : Nat :=
  data.countP (fun r => trimJS (recGetS r col) = l)

/-- The frequency aggregation exactly as the claim words it: one entry per
distinct trimmed non-blank value in first-appearance order, stably sorted
by count descending, truncated to `topN`. -/
def frequencyClaim (data : List (List (String × String))) (col : String) (topN : Nat) :
    List (String × Nat) :=
  (((dedupFirst (colValues data col)).map (fun l => (l, countVal data col l))).insertionSort
      freqLe).take topN

/-- The frequency aggregation as amended: as `frequencyClaim`, except that
before the count sort the entries are put into JavaScript property
enumeration order (array-index-like labels first, ascending). -/
def frequencySpecAmended (data : List (List (String × String))) (col : String)
    (topN : Nat) : List (String × Nat) :=
  ((jsEntries ((dedupFirst (colValues data col)).map
        (fun l => (l, countVal data col l)))).insertionSort freqLe).take topN

/-! ## The table sort (`DataTableTab.sortedData`) -/

/-- The comparator of `sortedData` for direction `asc` and sort column
`key`: numeric when both `parseFloat`s succeed (finite or not), otherwise
locale string comparison; `desc` swaps the operands. -/
def codeSortCmp (asc : Bool) (key : String) (a b : List (String × String)) : Int :=
  let av := recGetS a key
  let bv := recGetS b key
  match parseFloat av, parseFloat bv with
  | some x, some y => if asc then jsNumCmp x y else jsNumCmp y x
  | _, _ => if asc then strCmp av bv else strCmp bv av

/-- The sorted view: a stable sort of a copy of the filtered data by the
comparator (an element stays before a later one exactly when the
comparator is non-positive). -/
def sortedData (asc : Bool) (key : String) (data : List (List (String × String))) :
    List (List (String × String)) :=
  data.insertionSort (fun a b => codeSortCmp asc key a b ≤ 0)

/-- The comparator as the claim words it: numeric exactly when both values
parse as finite numbers, otherwise locale string comparison. -/
def claimSortCmp (asc : Bool) (key : String) (a b : List (String × String)) : Int :=
  let av := recGetS a key
  let bv := recGetS b key
  match parseFloat av, parseFloat bv with
  | some (JsNum.fin x), some (JsNum.fin y) =>
    if asc then jsNumCmp (JsNum.fin x) (JsNum.fin y) else jsNumCmp (JsNum.fin y) (JsNum.fin x)
  | _, _ => if asc then strCmp av bv else strCmp bv av

/-- The sort the claim describes (same stable sort, claim comparator). -/
def claimSortedData (asc : Bool) (key : String)
    (data : List (List (String × String))) : List (List (String × String)) :=
  data.insertionSort (fun a b => claimSortCmp asc key a b ≤ 0)

/-- The comparator as amended: numeric exactly when both `parseFloat`s
succeed, infinite results included, otherwise locale string comparison. -/
def amendedSortCmp (asc : Bool) (key : String) (a b : List (String × String)) : Int :=
  let av := recGetS a key
  let bv := recGetS b key
  if (parseFloat av).isSome && (parseFloat bv).isSome then
    let x := (parseFloat av).getD (JsNum.fin 0)
    let y := (parseFloat bv).getD (JsNum.fin 0)
    if asc then jsNumCmp x y else jsNumCmp y x
  else
    if asc then strCmp av bv else strCmp bv av

/-! ## The CSV exporter (`downloadCSV`) -/

/-- Double every double-quote (`value.replace(/"/g, '""')`). -/
def doubleQuotes : List Char → List Char
  | [] => []
  | c :: cs => if c = '"' then '"' :: '"' :: doubleQuotes cs else c :: doubleQuotes cs

/-- Model of `value.includes(c)` for a single character. -/
def hasChar (v : String) (c : Char) : Bool :=
  v.data.contains c

/-- The escaping step of `downloadCSV`: wrap in double quotes, doubling
internal quotes, exactly when the value contains a comma or a quote. -/
def escapeCSV (v : String) : String :=
  if hasChar v ',' || hasChar v '"' then
    String.mk ('"' :: (doubleQuotes v.data ++ ['"']))
  else v

/-- Model of `Array.prototype.join(sep)` at the character level. -/
def joinWith (sep : Char) : List (List Char) → List Char
  | [] => []
  | [x] => x
  | x :: xs => x ++ sep :: joinWith sep xs

/-- One CSV data line: the selected values (missing keys as `''`),
escaped and joined by commas. -/
def csvRowLine (sel : List String) (r : List (String × String)) : List Char :=
  joinWith ',' (sel.map (fun col => (escapeCSV (recGetS r col)).data))

/-- The text produced by `downloadCSV`: `none` when it returns without output
(no rows or no selected columns), otherwise the header line followed by
one line per record. -/
def downloadCSVString (rows : List (List (String × String))) (sel : List String) :
    Option String :=
  if rows.isEmpty || sel.isEmpty then none
  else
    some (String.mk (joinWith ',' (sel.map String.data) ++
      '\n' :: joinWith '\n' (rows.map (csvRowLine sel))))

/-- Quote-respecting split of one CSV line on commas: outside quotes a
comma ends the field and a quote opens quoted mode; inside quotes a
doubled quote is a literal quote and a single quote closes the mode. -/
def csvSplitAux : Bool → List Char → List Char → List String
  | _, cur, [] => [String.mk cur.reverse]
  | true, cur, c :: cs =>
    if c = '"' then
      if cs.head? = some '"' then csvSplitAux true ('"' :: cur) cs.tail
      else csvSplitAux false cur cs
    else csvSplitAux true (c :: cur) cs
  | false, cur, c :: cs =>
    if c = ',' then String.mk cur.reverse :: csvSplitAux false [] cs
    else if c = '"' then csvSplitAux true cur cs
    else csvSplitAux false (c :: cur) cs
termination_by _ _ l => l.length
decreasing_by all_goals simp <;> omega

/-- Split a CSV line into its fields, respecting quote escaping. -/
def splitCSVLine (cs : List Char) : List String :=
  csvSplitAux false [] cs

/-! ## The JSON exporter (`downloadJSON`) -/

/-- JSON string escaping as `JSON.stringify` performs it. -/
def jsonEscapeChar (c : Char) : List Char :=
  if c = '"' then ['\\', '"']
  else if c = '\\' then ['\\', '\\']
  else if c = '\n' then ['\\', 'n']
  else if c = '\r' then ['\\', 'r']
  else if c = '\t' then ['\\', 't']
  else if c = Char.ofNat 8 then ['\\', 'b']
  else if c = Char.ofNat 12 then ['\\', 'f']
  else if c.toNat < 32 then
    ['\\', 'u', '0', '0', (Nat.digitChar (c.toNat / 16)), (Nat.digitChar (c.toNat % 16))]
  else [c]

/-- A JSON string literal. -/
def jsonQuote (s : String) : String :=
  String.mk ('"' :: ((s.data.map jsonEscapeChar).flatten ++ ['"']))

/-- One `"key": "value"` member. -/
def renderField (k v : String) : String :=
  jsonQuote k ++ ": " ++ jsonQuote v

/-- One object of the exported array under `JSON.stringify(_, null, 2)`:
two levels deep, so members are indented four spaces and the braces two. -/
def renderObj (pairs : List (String × String)) : String :=
  if pairs.isEmpty then "\x7b\x7d"
  else
    "\x7b\n" ++ String.intercalate ",\n" (pairs.map (fun p => "    " ++ renderField p.1 p.2)) ++
      "\n  \x7d"

/-- The exported array under `JSON.stringify(_, null, 2)`. -/
def renderArr (objs : List (List (String × String))) : String :=
  if objs.isEmpty then "[]"
  else
    "[\n" ++ String.intercalate ",\n" (objs.map (fun o => "  " ++ renderObj o)) ++ "\n]"

/-- Serialization of one array of objects by `JSON.stringify`: each
object's members are enumerated in property order (`jsEntries`:
array-index-like keys first, ascending, then creation order) and members
whose value is `undefined` are dropped. -/
def renderArrOpt (objs : List (List (String × Option String))) : String :=
  renderArr (objs.map (fun o =>
    (jsEntries o).filterMap (fun p => (p.2).map (fun v => (p.1, v)))))

/-- The text produced by `downloadJSON`: `none` when there are no rows; with a
non-empty selection each record is reduced to the object built by
`filteredRow[col] = row[col]` over the selected columns (assigning
`undefined` for a missing key), otherwise the record objects are exported
as they are. -/
def downloadJSONString (rows : List (List (String × String))) (sel : List String) :
    Option String :=
  if rows.isEmpty then none
  else
    some (renderArrOpt
      (if !sel.isEmpty then
        rows.map (fun r => sel.foldl (fun obj c => jsObjectSet c (jsGet c r) obj) [])
      else
        rows.map (fun r => r.map (fun kv => (kv.1, some kv.2)))))

/-! ## Helper lemmas about the object model -/

theorem keysOf_jsObjectSet {α : Type} (k : String) (v : α) (m : List (String × α)) :
    keysOf (jsObjectSet k v m) =
      if k ∈ keysOf m then keysOf m else keysOf m ++ [k] := by
  induction m with
  | nil => simp [jsObjectSet, keysOf]
  | cons p rest ih =>
    obtain ⟨k', v'⟩ := p
    by_cases h : k' = k
    · subst h
      simp [jsObjectSet, keysOf]
    · simp only [jsObjectSet, if_neg h, keysOf, List.map_cons] at ih ⊢
      rw [ih]
      by_cases hm : k ∈ List.map Prod.fst rest
      · simp [hm, Ne.symm h]
      · simp [hm, Ne.symm h]

theorem jsObjectSet_of_not_mem {α : Type} (k : String) (v : α) (m : List (String × α))
    (h : k ∉ keysOf m) : jsObjectSet k v m = m ++ [(k, v)] := by
  induction m with
  | nil => rfl
  | cons p rest ih =>
    obtain ⟨k', v'⟩ := p
    simp only [keysOf, List.map_cons, List.mem_cons] at h
    push_neg at h
    simp only [jsObjectSet, if_neg (Ne.symm h.1), List.cons_append, List.cons.injEq, true_and]
    exact ih h.2

theorem jsGet_isSome_iff {α : Type} (k : String) (m : List (String × α)) :
    (jsGet k m).isSome = true ↔ k ∈ keysOf m := by
  induction m with
  | nil => simp [jsGet, keysOf]
  | cons p rest ih =>
    obtain ⟨k', v'⟩ := p
    by_cases h : k' = k
    · subst h; simp [jsGet, keysOf]
    · simp [jsGet, h, keysOf, ih, Ne.symm h]

theorem dedupFirstAux_congr :
    ∀ (xs seen₁ seen₂ : List String), (∀ y, y ∈ seen₁ ↔ y ∈ seen₂) →
      dedupFirstAux seen₁ xs = dedupFirstAux seen₂ xs
  | [], _, _, _ => rfl
  | x :: xs, seen₁, seen₂, hsame => by
    by_cases hx : x ∈ seen₁
    · rw [dedupFirstAux, dedupFirstAux, if_pos hx, if_pos ((hsame x).mp hx)]
      exact dedupFirstAux_congr xs seen₁ seen₂ hsame
    · rw [dedupFirstAux, dedupFirstAux, if_neg hx, if_neg (fun h => hx ((hsame x).mpr h))]
      refine congrArg (x :: ·) (dedupFirstAux_congr xs (x :: seen₁) (x :: seen₂) ?_)
      intro y
      simp [hsame y]

theorem dedupFirstAux_filter :
    ∀ (xs seen : List String) (s : String),
      dedupFirstAux (s :: seen) xs = dedupFirstAux seen (xs.filter (fun w => w ≠ s))
  | [], _, _ => rfl
  | x :: xs, seen, s => by
    by_cases hxs : x = s
    · subst hxs
      simp only [dedupFirstAux, List.filter_cons]
      rw [if_pos (List.mem_cons_self x seen), if_neg (by simp)]
      exact dedupFirstAux_filter xs seen x
    · rw [List.filter_cons, if_pos (by simp [hxs])]
      by_cases hx : x ∈ seen
      · simp only [dedupFirstAux]
        rw [if_pos (List.mem_cons_of_mem s hx), if_pos hx]
        exact dedupFirstAux_filter xs seen s
      · simp only [dedupFirstAux]
        rw [if_neg (by simp [hxs, hx]), if_neg hx]
        refine congrArg (x :: ·) ?_
        rw [dedupFirstAux_congr xs (x :: s :: seen) (s :: x :: seen) (by intro y; constructor <;>
          (intro h; simp only [List.mem_cons] at h ⊢; tauto))]
        exact dedupFirstAux_filter xs (x :: seen) s

theorem dedupFirst_nil : dedupFirst [] = [] := rfl

theorem dedupFirst_cons (x : String) (xs : List String) :
    dedupFirst (x :: xs) = x :: dedupFirst (xs.filter (fun w => w ≠ x)) := by
  rw [dedupFirst, dedupFirstAux]
  rw [if_neg (List.not_mem_nil x)]
  exact congrArg (x :: ·) (dedupFirstAux_filter xs [] x)

theorem mem_dedupFirst (v : String) : ∀ xs : List String, v ∈ dedupFirst xs ↔ v ∈ xs
  | [] => by simp [dedupFirst_nil]
  | x :: xs => by
    rw [dedupFirst_cons]
    by_cases h : v = x
    · subst h; simp
    · have := mem_dedupFirst v (xs.filter (fun w => w ≠ x))
      simp only [List.mem_cons, this, List.mem_filter, ne_eq, decide_eq_true_eq]
      constructor
      · rintro (rfl | ⟨hv, _⟩)
        · exact Or.inl rfl
        · exact Or.inr hv
      · rintro (rfl | hv)
        · exact Or.inl rfl
        · exact Or.inr ⟨hv, h⟩
termination_by xs => xs.length
decreasing_by
  simp only [gt_iff_lt]
  exact Nat.lt_succ_of_le (List.length_filter_le _ _)

theorem nodup_dedupFirst : ∀ xs : List String, (dedupFirst xs).Nodup
  | [] => by simp [dedupFirst_nil]
  | x :: xs => by
    rw [dedupFirst_cons]
    refine List.nodup_cons.mpr ⟨?_, nodup_dedupFirst (xs.filter (fun w => w ≠ x))⟩
    rw [mem_dedupFirst]
    simp
termination_by xs => xs.length
decreasing_by
  simp only [gt_iff_lt]
  exact Nat.lt_succ_of_le (List.length_filter_le _ _)

theorem dedupFirst_append_singleton (v : String) :
    ∀ xs : List String,
      dedupFirst (xs ++ [v]) = if v ∈ xs then dedupFirst xs else dedupFirst xs ++ [v]
  | [] => by simp [dedupFirst_nil, dedupFirst_cons]
  | x :: xs => by
    by_cases h : v = x
    · subst h
      simp only [List.cons_append, dedupFirst_cons, List.mem_cons, true_or, if_true]
      rw [List.filter_append]
      simp
    · simp only [List.cons_append, dedupFirst_cons, List.filter_append]
      have hfv : [v].filter (fun w => w ≠ x) = [v] := by simp [h]
      rw [hfv, dedupFirst_append_singleton v (xs.filter (fun w => w ≠ x))]
      by_cases hm : v ∈ xs
      · have : v ∈ xs.filter (fun w => w ≠ x) := by simp [List.mem_filter, hm, h]
        simp [this, hm, List.mem_cons, h]
      · have : v ∉ xs.filter (fun w => w ≠ x) := by
          simp only [List.mem_filter, not_and]
          intro hv; exact absurd hv hm
        simp [this, hm, List.mem_cons, h]
termination_by xs => xs.length
decreasing_by
  simp only [gt_iff_lt]
  exact Nat.lt_succ_of_le (List.length_filter_le _ _)

theorem mem_jsKeysOrder (c : String) (ks : List String) :
    c ∈ jsKeysOrder ks ↔ c ∈ ks := by
  simp only [jsKeysOrder, List.mem_append, List.mem_insertionSort, List.mem_filter]
  by_cases h : isArrayIndexKey c <;> simp [h]

theorem mem_jsEntries {α : Type} (p : String × α) (m : List (String × α)) :
    p ∈ jsEntries m ↔ p ∈ m := by
  simp only [jsEntries, List.mem_append, List.mem_insertionSort, List.mem_filter]
  by_cases h : isArrayIndexKey p.1 <;> simp [h]

/-! ## Building records: the generic zip lemma -/

theorem buildObj_aux {α : Type} (val : Nat → α) :
    ∀ (ps : List (Nat × String)) (obj : List (String × α)),
      (ps.map Prod.snd).Nodup → (∀ p ∈ ps, p.2 ∉ keysOf obj) →
      ps.foldl (fun o p => jsObjectSet p.2 (val p.1) o) obj =
        obj ++ ps.map (fun p => (p.2, val p.1))
  | [], obj, _, _ => by simp
  | p :: ps, obj, hnd, hfresh => by
    simp only [List.foldl_cons, List.map_cons, List.nodup_cons] at hnd ⊢
    rw [jsObjectSet_of_not_mem p.2 (val p.1) obj (hfresh p (List.mem_cons_self p ps))]
    rw [buildObj_aux val ps (obj ++ [(p.2, val p.1)]) hnd.2 ?_]
    · simp
    · intro q hq
      simp only [keysOf, List.map_append, List.mem_append, List.map_cons, List.map_nil,
        List.mem_singleton, not_or]
      refine ⟨hfresh q (List.mem_cons_of_mem _ hq), ?_⟩
      intro hqp
      exact hnd.1 (hqp ▸ List.mem_map_of_mem Prod.snd hq)

theorem buildObj_eq_of_nodup {α : Type} (headers : List String) (val : Nat → α)
    (hnd : headers.Nodup) :
    buildObj headers val = headers.enum.map (fun p => (p.2, val p.1)) := by
  have hsnd : (headers.enum.map Prod.snd).Nodup := by
    rw [List.enum_map_snd]; exact hnd
  have := buildObj_aux val headers.enum [] hsnd (by simp [keysOf])
  simpa [buildObj] using this

theorem keysOf_buildObj {α : Type} (headers : List String) (val : Nat → α) :
    keysOf (buildObj headers val) = dedupFirst headers := by
  suffices h : ∀ (ps : List (Nat × String)) (obj : List (String × α)),
      keysOf (ps.foldl (fun o p => jsObjectSet p.2 (val p.1) o) obj) =
        (ps.map Prod.snd).foldl (fun a k => if k ∈ a then a else a ++ [k]) (keysOf obj) by
    have h2 : ∀ ks : List String, ∀ acc : List String,
        ks.foldl (fun a k => if k ∈ a then a else a ++ [k]) acc =
          acc ++ dedupFirst (ks.filter (fun k => k ∉ acc)) := by
      intro ks
      induction ks with
      | nil => intro acc; simp [dedupFirst, dedupFirstAux]
      | cons k ks ih =>
        intro acc
        by_cases hk : k ∈ acc
        · simp only [List.foldl_cons, if_pos hk, ih, List.filter_cons]
          have : (decide (k ∉ acc)) = false := by simp [hk]
          rw [this]
          simp
        · simp only [List.foldl_cons, if_neg hk, ih, List.filter_cons]
          have : (decide (k ∉ acc)) = true := by simp [hk]
          rw [this, if_pos rfl]
          rw [dedupFirst_cons, List.append_assoc]
          congr 2
          rw [List.singleton_append]
          congr 1
          rw [List.filter_filter]
          congr 1
          apply List.filter_congr
          intro x hx
          by_cases hxa : x ∈ acc <;> by_cases hxk : x = k <;>
            simp [hxa, hxk, List.mem_append]
    rw [buildObj, h headers.enum [], List.enum_map_snd]
    have := h2 headers []
    simpa using this
  intro ps
  induction ps with
  | nil => intro obj; simp
  | cons p ps ih =>
    intro obj
    simp only [List.foldl_cons, List.map_cons]
    rw [ih, keysOf_jsObjectSet]

/-! ## C9: a failed decode leaves the installed workbook untouched -/

/-- C9: for every upload whose decode fails, the previously held workbook
(if any) is left completely unchanged; the failure surfaces only as an
error message and no partial or replacement workbook is installed. -/
theorem C9_decode_failure_keeps_workbook (st : UploadState) (msg : String) :
    (processUploadResult st (Except.error msg)).uploadedData = st.uploadedData ∧
    (processUploadResult st (Except.error msg)).errorMsg =
      some ("Error processing file: " ++ msg) :=
  ⟨rfl, rfl⟩

/-! ## C10: the export guards -/

/-- C10: both exporters return without producing any output on an empty
row set, and the delimited-text exporter also does so whenever zero
columns are selected (so no header-only file is ever emitted); the JSON
exporter's guard is exactly the empty row set. -/
theorem C10_export_guards (rows : List (List (String × String))) (sel : List String) :
    (downloadCSVString rows sel = none ↔ rows = [] ∨ sel = []) ∧
    (downloadJSONString rows sel = none ↔ rows = []) := by
  constructor
  · rw [downloadCSVString]
    by_cases h : (rows.isEmpty || sel.isEmpty) = true
    · rw [if_pos h]
      simp only [Bool.or_eq_true, List.isEmpty_iff] at h
      simp [h]
    · rw [if_neg h]
      simp only [Bool.or_eq_true, List.isEmpty_iff] at h
      push_neg at h
      simp [h.1, h.2]
  · rw [downloadJSONString]
    by_cases h : rows.isEmpty = true
    · rw [if_pos h]
      simp only [List.isEmpty_iff] at h
      simp [h]
    · rw [if_neg h]
      simp only [List.isEmpty_iff] at h
      simp [h]

/-! ## C2: the numeric-column classifier -/

/-- C2 as stated is false on the code: `"3abc"` parses (`parseFloat`
succeeds with the finite value 3) yet the column is not classified
numeric, because the classifier additionally requires the whole value to
coerce to a finite number; under the alternative reading where the parse
is the whole-value coercion, `""` coerces to the finite 0 yet the column
is again not classified numeric. -/
theorem C2_counterexample :
    numericColumns ["A"] [[("A", "3abc")]] = [] ∧
    parseFloat "3abc" = some (JsNum.fin 3) ∧
    numericColumns ["B"] [[("B", "")]] = [] ∧
    jsToNumber "" = some (JsNum.fin 0) := by
  refine ⟨by decide, by decide, by decide, by decide⟩

/-- C2 as amended: a column is classified numeric exactly when it is a
column of the record set and some record's value both has a successful
`parseFloat` and coerces as a whole (via `Number`) to a finite value. -/
theorem C2_numeric_iff (cols : List String) (data : List (List (String × String)))
    (col : String) :
    col ∈ numericColumns cols data ↔
      col ∈ cols ∧ ∃ r ∈ data,
        (parseFloat (recGetS r col)).isSome = true ∧
        jsIsFiniteStr (recGetS r col) = true := by
  simp [numericColumns, List.mem_filter, List.any_eq_true, numericCellCheck]

/-! ## C7: value preservation through the upload normalizer -/

/-- Lookup in the record built positionally from `enumFrom`: with
duplicate-free headers the value at header `i` is the zipped value. -/
theorem jsGet_enumFrom_map {α : Type} (f : Nat → α) :
    ∀ (headers : List String) (n i : Nat) (hnd : headers.Nodup) (hi : i < headers.length),
      jsGet (headers.get ⟨i, hi⟩) ((List.enumFrom n headers).map (fun p => (p.2, f p.1))) =
        some (f (n + i))
  | [], _, i, _, hi => absurd hi (by simp)
  | h :: t, n, 0, _, _hnd => by
    simp [List.enumFrom, jsGet]
  | h :: t, n, i + 1, hnd, hi => by
    have ht : i < t.length := by
      have h2 := hi
      simp only [List.length_cons] at h2
      omega
    have hne : h ≠ t.get ⟨i, ht⟩ := by
      intro he
      exact (List.nodup_cons.mp hnd).1 (he ▸ List.get_mem t i ht)
    simp only [List.enumFrom, List.map_cons, List.get_cons_succ, jsGet]
    rw [if_neg hne]
    have harith : n + 1 + i = n + (i + 1) := by omega
    rw [jsGet_enumFrom_map f t (n + 1) i (List.nodup_cons.mp hnd).2 ht, harith]

/-- C7 as stated is false on the code: the decoded cell `0` survives its
row (the row filter keeps it) but is replaced by the empty string, because
`row[index] || ''` replaces every falsy cell. -/
theorem C7_counterexample :
    normalizeUploadSheet [[Cell.str "A"], [Cell.num 0]] = [[("A", Cell.str "")]] ∧
    Cell.str "" ≠ Cell.num 0 := by
  exact ⟨by decide, by decide⟩

/-- C7 as amended: for duplicate-free headers, the record value under
header `i` is the decoded cell itself when that cell is truthy, and the
empty string when the cell is falsy (`undefined`, `''`, `0` or `false`) —
so exactly the truthy cells are preserved as given. -/
theorem C7_value_preservation_amended (headers : List String) (row : List Cell)
    (hnd : headers.Nodup) (i : Nat) (hi : i < headers.length) :
    jsGet (headers.get ⟨i, hi⟩) (buildRecordUpload headers row) =
      some (if (row.getD i Cell.undef).truthy then row.getD i Cell.undef
            else Cell.str "") := by
  rw [buildRecordUpload, buildObj_eq_of_nodup _ _ hnd]
  have h := jsGet_enumFrom_map (fun j => jsOrEmpty (row.getD j Cell.undef)) headers 0 i hnd hi
  have heq : headers.enum = List.enumFrom 0 headers := rfl
  rw [heq]
  simpa [jsOrEmpty] using h

theorem C7_value_preservation_amended_witness :
    jsGet "A" (buildRecordUpload ["A", "B"] [Cell.num 7, Cell.bool false]) =
      some (Cell.num 7) ∧
    jsGet "B" (buildRecordUpload ["A", "B"] [Cell.num 7, Cell.bool false]) =
      some (Cell.str "") := by
  constructor
  · have h := C7_value_preservation_amended ["A", "B"] [Cell.num 7, Cell.bool false]
      (by decide) 0 (by decide)
    simpa using h
  · have h := C7_value_preservation_amended ["A", "B"] [Cell.num 7, Cell.bool false]
      (by decide) 1 (by decide)
    simpa using h

/-! ## C8: the derived column list -/

/-- C8 as stated is false on the code: duplicate header labels collapse to
a single object property (`["A","A"]` yields the single column `"A"`), and
array-index-like labels enumerate before the others (`["B","10"]` yields
`["10","B"]`), so the column list is neither the header row nor in header
order. -/
theorem C8_counterexample :
    availableColumns
        (normalizeUploadSheet [[Cell.str "A", Cell.str "A"], [Cell.str "x", Cell.str "y"]]) =
      ["A"] ∧
    (["A"] : List String) ≠ ["A", "A"] ∧
    availableColumns
        (normalizeUploadSheet [[Cell.str "B", Cell.str "10"], [Cell.str "x", Cell.str "y"]]) =
      ["10", "B"] ∧
    (["10", "B"] : List String) ≠ ["B", "10"] := by
  exact ⟨by decide, by decide, by decide, by decide⟩

/-- C8 as amended: for every record built from the header row, the derived
column list is the header row's distinct labels (first occurrences,
duplicates collapsed) put into JavaScript property-enumeration order
(array-index-like labels first, ascending), independently of the row; and
every record has a value (`isSome`) for every column in that list. -/
theorem C8_columns_amended (headers : List String) :
    (∀ row : List Cell,
      jsKeys (buildRecordUpload headers row) = jsKeysOrder (dedupFirst headers)) ∧
    (∀ (row : List Cell) (c : String), c ∈ jsKeysOrder (dedupFirst headers) →
      (jsGet c (buildRecordUpload headers row)).isSome = true) := by
  constructor
  · intro row
    rw [jsKeys, buildRecordUpload, keysOf_buildObj]
  · intro row c hc
    rw [jsGet_isSome_iff, buildRecordUpload, keysOf_buildObj]
    exact (mem_jsKeysOrder c _).mp hc

theorem C8_columns_amended_witness :
    (jsGet "A" (buildRecordUpload ["A"] [Cell.str "x"])).isSome = true :=
  (C8_columns_amended ["A"]).2 [Cell.str "x"] "A" (by decide)

/-! ## C1: which rows survive normalization -/

/-- The claim's row predicate: at least one cell that is neither
`undefined` nor the empty string. -/
def rowHasNonEmptyCell (row : List Cell) : Bool :=
  row.any (fun c => c != Cell.undef && c != Cell.str "")

/-- C1 as stated is false on the code: in the sample-data loader a row
whose only cell is the blank `" "` has a non-empty cell, yet it is dropped
(the loader tests the trimmed record values, not cell emptiness). -/
theorem C1_counterexample :
    loadSampleSheet ["A"] [[" "]] = [] ∧
    ([[" "]] : List (List String)).countP
        (fun row => row.any (fun c => c ≠ "")) = 1 := by
  exact ⟨by decide, by decide⟩

/-- C1 as amended: the upload normalizer drops a row exactly when every
cell is `undefined` or `''` (surviving records are exactly the rows with a
non-empty cell, in number too); the sample-data loader instead drops a row
exactly when every value zipped under a header position is empty or
whitespace-only after trimming. -/
theorem C1_normalize_amended :
    (∀ (headerRow : List Cell) (rows : List (List Cell)),
      normalizeUploadSheet (headerRow :: rows) =
        (rows.filter rowHasNonEmptyCell).map (buildRecordUpload (headerRow.map cellKey)) ∧
      (normalizeUploadSheet (headerRow :: rows)).length =
        rows.countP rowHasNonEmptyCell) ∧
    (∀ (headers : List String) (rows : List (List String)), headers.Nodup →
      (loadSampleSheet headers rows).length =
        rows.countP (fun row =>
          (List.range headers.length).any (fun i => trimJS (row.getD i "") != ""))) := by
  constructor
  · intro headerRow rows
    constructor
    · rfl
    · rw [normalizeUploadSheet, List.length_map, ← List.countP_eq_length_filter]
      rfl
  · intro headers rows hnd
    rw [loadSampleSheet, ← List.countP_eq_length_filter, List.countP_map]
    apply List.countP_congr
    intro row _
    have hiff :
        (sampleKeepRecord (buildRecordSample headers row) = true) ↔
          (((List.range headers.length).any
            (fun i => trimJS (row.getD i "") != "")) = true) := by
      rw [buildRecordSample, buildObj_eq_of_nodup _ _ hnd, sampleKeepRecord]
      rw [List.any_eq_true, List.any_eq_true]
      constructor
      · rintro ⟨kv, hkv, hv⟩
        obtain ⟨p, hp, rfl⟩ := List.mem_map.mp hkv
        rw [List.enum_eq_zip_range] at hp
        exact ⟨p.1, (List.of_mem_zip hp).1, by simpa using hv⟩
      · rintro ⟨i, hi, hv⟩
        have hlen : i < headers.length := List.mem_range.mp hi
        have hmem : ((i, headers.get ⟨i, hlen⟩) : Nat × String) ∈ headers.enum := by
          rw [List.enum_eq_zip_range, List.mem_iff_getElem]
          refine ⟨i, by simpa using hlen, ?_⟩
          rw [List.getElem_zip]
          simp [List.get_eq_getElem]
        refine ⟨(headers.get ⟨i, hlen⟩, row.getD i ""), ?_, by simpa using hv⟩
        exact List.mem_map.mpr ⟨(i, headers.get ⟨i, hlen⟩), hmem, rfl⟩
    simpa using hiff

theorem C1_normalize_amended_witness :
    (loadSampleSheet ["A"] [["x"], [""]]).length =
      ([["x"], [""]] : List (List String)).countP
        (fun row => (List.range 1).any (fun i => trimJS (row.getD i "") != "")) :=
  C1_normalize_amended.2 ["A"] [["x"], [""]] (by decide)

/-! ## C3: the frequency aggregation -/

instance : IsTotal (String × Nat) freqLe :=
  ⟨fun a b => Nat.le_total b.2 a.2⟩

instance : IsTrans (String × Nat) freqLe :=
  ⟨fun _ _ _ h1 h2 => Nat.le_trans h2 h1⟩

theorem bumpCount_of_mem (v : String) (labels : List String) (f : String → Nat)
    (hnd : labels.Nodup) (hv : v ∈ labels) :
    bumpCount v (labels.map (fun l => (l, f l))) =
      labels.map (fun l => (l, if l = v then f l + 1 else f l)) := by
  induction labels with
  | nil => cases hv
  | cons x xs ih =>
    rw [List.map_cons, List.map_cons, bumpCount]
    by_cases hx : x = v
    · subst hx
      rw [if_pos rfl, if_pos rfl]
      congr 1
      apply List.map_congr_left
      intro l hl
      have hne : l ≠ x := by
        intro he
        exact (List.nodup_cons.mp hnd).1 (he ▸ hl)
      rw [if_neg hne]
    · rw [if_neg hx, if_neg hx]
      congr 1
      refine ih (List.nodup_cons.mp hnd).2 ?_
      rcases List.mem_cons.mp hv with h | h
      · exact absurd h.symm hx
      · exact h

theorem bumpCount_of_not_mem (v : String) (labels : List String) (f : String → Nat)
    (hv : v ∉ labels) :
    bumpCount v (labels.map (fun l => (l, f l))) =
      labels.map (fun l => (l, f l)) ++ [(v, 1)] := by
  induction labels with
  | nil => rfl
  | cons x xs ih =>
    have hne : x ≠ v := by
      intro he
      exact hv (he ▸ List.mem_cons_self x xs)
    rw [List.map_cons, bumpCount, if_neg hne]
    congr 1
    exact ih (fun h => hv (List.mem_cons_of_mem x h))

theorem mem_colValues_iff (data : List (List (String × String))) (col v : String) :
    v ∈ colValues data col ↔ (∃ r ∈ data, trimJS (recGetS r col) = v) ∧ v ≠ "" := by
  rw [colValues, List.mem_filter]
  simp only [List.mem_map, decide_eq_true_eq]

theorem countVal_eq_zero_of_not_mem (data : List (List (String × String)))
    (col v : String) (hne : v ≠ "") (hv : v ∉ colValues data col) :
    countVal data col v = 0 := by
  rw [countVal, List.countP_eq_zero]
  intro r hr hp
  simp only [decide_eq_true_eq] at hp
  exact hv ((mem_colValues_iff data col v).mpr ⟨⟨r, hr, hp⟩, hne⟩)

theorem label_ne_blank_of_mem_dedup (data : List (List (String × String)))
    (col l : String) (hl : l ∈ dedupFirst (colValues data col)) : l ≠ "" := by
  have := (mem_dedupFirst l _).mp hl
  exact ((mem_colValues_iff data col l).mp this).2

/-- The `counts` object equals: distinct trimmed non-blank values in
first-appearance order, each paired with its exact count. -/
theorem freqCounts_eq (data : List (List (String × String))) (col : String) :
    freqCounts data col =
      (dedupFirst (colValues data col)).map (fun l => (l, countVal data col l)) := by
  induction data using List.reverseRecOn with
  | nil => rfl
  | append_singleton data r ih =>
    have hstep : freqCounts (data ++ [r]) col = freqStep col (freqCounts data col) r := by
      rw [freqCounts, freqCounts, List.foldl_append, List.foldl_cons, List.foldl_nil]
    set v := trimJS (recGetS r col) with hvdef
    have hcv : colValues (data ++ [r]) col =
        colValues data col ++ (if v = "" then [] else [v]) := by
      rw [colValues, colValues, List.map_append, List.filter_append]
      congr 1
      by_cases h : v = "" <;> simp [← hvdef, h]
    have hcnt : ∀ l, countVal (data ++ [r]) col l =
        countVal data col l + (if v = l then 1 else 0) := by
      intro l
      rw [countVal, countVal, List.countP_append]
      congr 1
      by_cases h : v = l
      · rw [if_pos h]
        simp [← hvdef, h]
      · rw [if_neg h]
        simp [← hvdef, h]
    by_cases hv0 : v = ""
    · rw [hstep, freqStep, ← hvdef, if_pos hv0, ih, hcv, if_pos hv0, List.append_nil]
      apply List.map_congr_left
      intro l hl
      have : v ≠ l := fun he => (label_ne_blank_of_mem_dedup data col l hl) (he ▸ hv0)
      rw [hcnt l, if_neg this, Nat.add_zero]
    · rw [hstep, freqStep, ← hvdef, if_neg hv0, ih, hcv, if_neg hv0]
      by_cases hvm : v ∈ colValues data col
      · rw [dedupFirst_append_singleton, if_pos hvm]
        rw [bumpCount_of_mem v _ _ (nodup_dedupFirst _) ((mem_dedupFirst v _).mpr hvm)]
        apply List.map_congr_left
        intro l hl
        rw [hcnt l]
        by_cases hlv : l = v
        · rw [if_pos hlv, if_pos hlv.symm]
        · rw [if_neg hlv, if_neg (fun h => hlv h.symm), Nat.add_zero]
      · rw [dedupFirst_append_singleton, if_neg hvm]
        rw [bumpCount_of_not_mem v _ _ (fun h => hvm ((mem_dedupFirst v _).mp h))]
        rw [List.map_append]
        congr 1
        · apply List.map_congr_left
          intro l hl
          have hlv : v ≠ l := by
            intro he
            exact hvm (he ▸ (mem_dedupFirst l _).mp hl)
          rw [hcnt l, if_neg hlv, Nat.add_zero]
        · rw [List.map_singleton]
          congr 1
          rw [hcnt v, if_pos rfl, countVal_eq_zero_of_not_mem data col v hv0 hvm]

/-- C3 as stated is false on the code: with the tied labels `"b"` (first
appearance) and `"10"`, the emitted order puts `"10"` first, because
`Object.entries` enumerates array-index-like keys before the others. -/
theorem C3_counterexample :
    frequencyCode [[("C", "b")], [("C", "10")]] "C" 8 = [("10", 1), ("b", 1)] ∧
    frequencyClaim [[("C", "b")], [("C", "10")]] "C" 8 = [("b", 1), ("10", 1)] := by
  exact ⟨by decide, by decide⟩

/-- C3 as amended: the aggregation counts each distinct trimmed non-blank
value exactly; the output is the claim's pipeline with one change — before
the stable descending count sort, entries stand in JavaScript property
enumeration order (array-index-like labels first in ascending numeric
order, then the rest by first appearance) — and it is sorted by count
descending with length at most `topN`. -/
theorem C3_frequency_amended (data : List (List (String × String))) (col : String)
    (topN : Nat) :
    frequencyCode data col topN = frequencySpecAmended data col topN ∧
    List.Sorted freqLe (frequencyCode data col topN) ∧
    (frequencyCode data col topN).length ≤ topN ∧
    ∀ p ∈ frequencyCode data col topN,
      p.1 ≠ "" ∧ p.2 = countVal data col p.1 := by
  refine ⟨?_, ?_, ?_, ?_⟩
  · rw [frequencyCode, frequencySpecAmended, freqCounts_eq]
  · exact (List.sorted_insertionSort freqLe _).sublist (List.take_sublist _ _)
  · rw [frequencyCode]
    exact List.length_take_le _ _
  · intro p hp
    have h1 : p ∈ (jsEntries (freqCounts data col)).insertionSort freqLe :=
      List.mem_of_mem_take hp
    have h2 : p ∈ jsEntries (freqCounts data col) :=
      (List.mem_insertionSort freqLe).mp h1
    have h3 : p ∈ freqCounts data col := (mem_jsEntries p _).mp h2
    rw [freqCounts_eq] at h3
    obtain ⟨l, hl, rfl⟩ := List.mem_map.mp h3
    exact ⟨label_ne_blank_of_mem_dedup data col l hl, rfl⟩

/-! ## C4: the table sort -/

/-- C4 as stated is false on the code: `"-Infinity"` does not parse as a
finite number, so the claim mandates locale string comparison with `"-5"`
(which puts `"-5"` first); but the code only checks `isNaN(parseFloat(…))`,
so it compares numerically and puts `"-Infinity"` first. -/
theorem C4_counterexample :
    sortedData true "K" [[("K", "-5")], [("K", "-Infinity")]] =
      [[("K", "-Infinity")], [("K", "-5")]] ∧
    claimSortedData true "K" [[("K", "-5")], [("K", "-Infinity")]] =
      [[("K", "-5")], [("K", "-Infinity")]] := by
  exact ⟨by decide, by decide⟩

/-- C4 as amended: the comparator is numeric exactly when both values'
`parseFloat` succeeds — infinite results included — and is locale string
comparison otherwise; the sort is a permutation of the input (the input
list itself is untouched — the code sorts a copy), and it is stable: any
pairwise-tied subsequence of the input stays a subsequence of the output,
in both directions. -/
theorem C4_sort_amended :
    (∀ (asc : Bool) (key : String) (a b : List (String × String)),
      codeSortCmp asc key a b = amendedSortCmp asc key a b) ∧
    (∀ (asc : Bool) (key : String) (data : List (List (String × String))),
      List.Perm (sortedData asc key data) data) ∧
    (∀ (asc : Bool) (key : String) (data c : List (List (String × String))),
      c.Pairwise (fun a b => codeSortCmp asc key a b = 0) → c.Sublist data →
      c.Sublist (sortedData asc key data)) := by
  refine ⟨?_, ?_, ?_⟩
  · intro asc key a b
    simp only [codeSortCmp, amendedSortCmp]
    cases h1 : parseFloat (recGetS a key) <;> cases h2 : parseFloat (recGetS b key) <;>
      simp [h1, h2]
  · intro asc key data
    exact List.perm_insertionSort _ data
  · intro asc key data c hp hc
    refine List.sublist_insertionSort ?_ hc
    exact hp.imp (fun h => le_of_eq h)

theorem C4_sort_amended_witness :
    ([[("K", "2")], [("K", "02")]] : List (List (String × String))).Sublist
      (sortedData true "K" [[("K", "2")], [("K", "02")]]) := by
  refine C4_sort_amended.2.2 true "K" _ _ ?_ ?_
  · exact List.pairwise_pair.mpr (by decide)
  · exact List.Sublist.refl _

/-! ## C5: CSV escaping and the per-line round trip -/

theorem data_mk (l : List Char) : (String.mk l).data = l := rfl

theorem mk_data (s : String) : String.mk s.data = s := rfl

theorem csvSplitAux_nil (inQ : Bool) (cur : List Char) :
    csvSplitAux inQ cur [] = [String.mk cur.reverse] := by
  cases inQ <;> rw [csvSplitAux]

theorem csvSplitAux_false_cons (cur : List Char) (c : Char) (cs : List Char) :
    csvSplitAux false cur (c :: cs) =
      if c = ',' then String.mk cur.reverse :: csvSplitAux false [] cs
      else if c = '"' then csvSplitAux true cur cs
      else csvSplitAux false (c :: cur) cs := by
  rw [csvSplitAux]

theorem csvSplitAux_true_cons (cur : List Char) (c : Char) (cs : List Char) :
    csvSplitAux true cur (c :: cs) =
      if c = '"' then
        (if cs.head? = some '"' then csvSplitAux true ('"' :: cur) cs.tail
         else csvSplitAux false cur cs)
      else csvSplitAux true (c :: cur) cs := by
  rw [csvSplitAux]

/-- Consuming a comma- and quote-free prefix outside quote mode. -/
theorem csvSplitAux_plain (xs : List Char) :
    ∀ (cur rest : List Char), (¬ ',' ∈ xs) → (¬ '"' ∈ xs) →
      csvSplitAux false cur (xs ++ rest) = csvSplitAux false (xs.reverse ++ cur) rest := by
  induction xs with
  | nil =>
    intro cur rest _ _
    simp
  | cons x xs ih =>
    intro cur rest hc hq
    have hx1 : ¬ x = ',' := fun h => hc (by simp [h])
    have hx2 : ¬ x = '"' := fun h => hq (by simp [h])
    rw [List.cons_append, csvSplitAux_false_cons, if_neg hx1, if_neg hx2]
    rw [ih (x :: cur) rest (fun h => hc (List.mem_cons_of_mem x h))
      (fun h => hq (List.mem_cons_of_mem x h))]
    rw [List.reverse_cons, List.append_assoc, List.singleton_append]

/-- Consuming a quote-doubled body inside quote mode, up to the closing
quote (the character after the closing quote, if any, is not a quote). -/
theorem csvSplitAux_quoted (xs : List Char) :
    ∀ (cur rest : List Char), rest.head? ≠ some '"' →
      csvSplitAux true cur (doubleQuotes xs ++ '"' :: rest) =
        csvSplitAux false (xs.reverse ++ cur) rest := by
  induction xs with
  | nil =>
    intro cur rest hr
    rw [doubleQuotes, List.nil_append, csvSplitAux_true_cons, if_pos rfl, if_neg hr]
    simp
  | cons x xs ih =>
    intro cur rest hr
    by_cases hx : x = '"'
    · subst hx
      rw [doubleQuotes, if_pos rfl, List.cons_append, List.cons_append,
        csvSplitAux_true_cons, if_pos rfl]
      rw [if_pos (by simp)]
      simp only [List.tail_cons]
      rw [ih ('"' :: cur) rest hr, List.reverse_cons, List.append_assoc,
        List.singleton_append]
    · rw [doubleQuotes, if_neg hx, List.cons_append, csvSplitAux_true_cons, if_neg hx]
      rw [ih (x :: cur) rest hr, List.reverse_cons, List.append_assoc,
        List.singleton_append]

/-- Consuming one escaped field: the parser ends outside quote mode with
the field's characters accumulated, whether or not the field was quoted. -/
theorem csvSplitAux_escape (v : String) (rest : List Char) (hr : rest.head? ≠ some '"') :
    csvSplitAux false [] ((escapeCSV v).data ++ rest) =
      csvSplitAux false v.data.reverse rest := by
  rw [escapeCSV]
  by_cases h : (hasChar v ',' || hasChar v '"') = true
  · rw [if_pos h, data_mk, List.cons_append, csvSplitAux_false_cons,
      if_neg (by decide), if_pos rfl, List.append_assoc, List.singleton_append]
    have := csvSplitAux_quoted v.data [] rest hr
    simpa using this
  · rw [if_neg h]
    have h2 : (¬ ',' ∈ v.data) ∧ (¬ '"' ∈ v.data) := by
      constructor <;> intro hm <;> apply h <;> simp [hasChar, hm]
    have := csvSplitAux_plain v.data [] rest h2.1 h2.2
    simpa using this

/-- C5 as stated is false on the code: the escaped form of
`Acme, "Inc."` is `"Acme, ""Inc."""` (ending in three quotes — doubled
internal quote plus closing quote), not the spec's `"Acme, ""Inc.""`. -/
theorem C5_counterexample :
    csvRowLine ["Company"] [("Company", "Acme, \"Inc.\"")] =
      "\"Acme, \"\"Inc.\"\"\"".data ∧
    ("\"Acme, \"\"Inc.\"\"\"" : String) ≠ "\"Acme, \"\"Inc.\"\"" := by
  exact ⟨by decide, by decide⟩

/-- C5 as amended: exactly the values containing the delimiter or a
double-quote are wrapped in double quotes with internal quotes doubled, so
that re-splitting each produced line on the delimiter respecting
quote-escaping reconstructs the selected values exactly; the value
`Acme, "Inc."` appears as `"Acme, ""Inc."""` (with the final closing
quote) and unescapes back to the original. -/
theorem C5_csv_roundtrip_amended :
    (∀ (sel : List String) (r : List (String × String)), sel ≠ [] →
      splitCSVLine (csvRowLine sel r) = sel.map (fun col => recGetS r col)) ∧
    escapeCSV "Acme, \"Inc.\"" = "\"Acme, \"\"Inc.\"\"\"" := by
  constructor
  · intro sel
    induction sel with
    | nil => intro r h; exact absurd rfl h
    | cons col tl ih =>
      intro r _
      cases tl with
      | nil =>
        rw [csvRowLine, List.map_singleton, joinWith, splitCSVLine]
        have h1 := csvSplitAux_escape (recGetS r col) [] (by simp)
        rw [List.append_nil] at h1
        rw [h1, csvSplitAux_nil, List.reverse_reverse, mk_data, List.map_singleton]
      | cons col2 tl2 =>
        rw [csvRowLine, List.map_cons, joinWith, splitCSVLine]
        have h1 := csvSplitAux_escape (recGetS r col)
          (',' :: joinWith ',' ((col2 :: tl2).map (fun c => (escapeCSV (recGetS r c)).data)))
          (by simp)
        rw [h1, csvSplitAux_false_cons, if_pos rfl, List.reverse_reverse, mk_data]
        congr 1
        have h2 := ih r (by simp)
        rw [csvRowLine, splitCSVLine] at h2
        exact h2
        simp
  · decide

theorem C5_csv_roundtrip_amended_witness :
    splitCSVLine (csvRowLine ["A"] [("A", "x")]) =
      (["A"] : List String).map (fun col => recGetS [("A", "x")] col) :=
  C5_csv_roundtrip_amended.1 ["A"] [("A", "x")] (by simp)

theorem C3_frequency_amended_witness :
    ("x", 2).1 ≠ "" ∧
    ("x", 2).2 = countVal [[("C", "x")], [("C", "x")]] "C" ("x", 2).1 :=
  (C3_frequency_amended [[("C", "x")], [("C", "x")]] "C" 5).2.2.2 ("x", 2) (by decide)

/-! ## C6: the JSON export -/

theorem filterMap_restrict (sel : List String) (r : List (String × String)) :
    (sel.map (fun c => (c, jsGet c r))).filterMap
        (fun p => (p.2).map (fun v => (p.1, v))) =
      (sel.filter (fun c => (jsGet c r).isSome)).map
        (fun c => (c, (jsGet c r).getD "")) := by
  induction sel with
  | nil => rfl
  | cons c tl ih =>
    rw [List.map_cons, List.filterMap_cons, List.filter_cons]
    cases h : jsGet c r with
    | none => simp [h, ih]
    | some v => simp [h, ih]

theorem filterMap_full (r : List (String × String)) :
    (r.map (fun kv => (kv.1, some kv.2))).filterMap
        (fun p => (p.2).map (fun v => (p.1, v))) = r := by
  induction r with
  | nil => rfl
  | cons kv tl ih => simp [ih]

/-- Writing `obj[v] = g v` when a binding for `v` produced by the same
value function is already present leaves the object unchanged. -/
theorem jsObjectSet_map_of_mem {α : Type} (v : String) (labels : List String)
    (g : String → α) (hv : v ∈ labels) :
    jsObjectSet v (g v) (labels.map (fun l => (l, g l))) =
      labels.map (fun l => (l, g l)) := by
  induction labels with
  | nil => cases hv
  | cons x xs ih =>
    rw [List.map_cons, jsObjectSet]
    by_cases hx : x = v
    · subst hx
      rw [if_pos rfl]
    · rw [if_neg hx]
      congr 1
      refine ih ?_
      rcases List.mem_cons.mp hv with h | h
      · exact absurd h.symm hx
      · exact h

/-- Writing `obj[v] = g v` for a fresh key appends the binding. -/
theorem jsObjectSet_map_of_not_mem {α : Type} (v : String) (labels : List String)
    (g : String → α) (hv : v ∉ labels) :
    jsObjectSet v (g v) (labels.map (fun l => (l, g l))) =
      labels.map (fun l => (l, g l)) ++ [(v, g v)] := by
  induction labels with
  | nil => rfl
  | cons x xs ih =>
    have hne : x ≠ v := by
      intro he
      exact hv (he ▸ List.mem_cons_self x xs)
    rw [List.map_cons, jsObjectSet, if_neg hne]
    congr 1
    exact ih (fun h => hv (List.mem_cons_of_mem x h))

/-- The object built by assigning `obj[c] = g c` over a key list is the
distinct keys in first-assignment order, each bound to its value. -/
theorem keyFold_eq {α : Type} (g : String → α) (sel : List String) :
    sel.foldl (fun o c => jsObjectSet c (g c) o) [] =
      (dedupFirst sel).map (fun c => (c, g c)) := by
  induction sel using List.reverseRecOn with
  | nil => rfl
  | append_singleton sel c ih =>
    rw [List.foldl_append, List.foldl_cons, List.foldl_nil, ih]
    by_cases h : c ∈ sel
    · rw [jsObjectSet_map_of_mem c _ g ((mem_dedupFirst c sel).mpr h)]
      rw [dedupFirst_append_singleton, if_pos h]
    · rw [jsObjectSet_map_of_not_mem c _ g (fun hm => h ((mem_dedupFirst c sel).mp hm))]
      rw [dedupFirst_append_singleton, if_neg h, List.map_append, List.map_singleton]

/-- Property enumeration of an object whose values are determined by the
keys: the keys in enumeration order, paired with their values. -/
theorem jsEntries_map_keyed {α : Type} (f : String → α) (labels : List String) :
    jsEntries (labels.map (fun l => (l, f l))) =
      (jsKeysOrder labels).map (fun l => (l, f l)) := by
  rw [jsEntries, jsKeysOrder, List.map_append]
  congr 1
  · rw [List.filter_map,
      ← List.map_insertionSort (s := fun p q : String × α => keyNatVal p.1 ≤ keyNatVal q.1)
        (r := fun a b : String => keyNatVal a ≤ keyNatVal b)
        (fun l => (l, f l)) _ (fun a _ b _ => Iff.rfl)]
    rfl
  · rw [List.filter_map]
    rfl

/-- Property enumeration commutes with a value-only transformation. -/
theorem jsEntries_map_snd {α β : Type} (g : α → β) (m : List (String × α)) :
    jsEntries (m.map (fun kv => (kv.1, g kv.2))) =
      (jsEntries m).map (fun kv => (kv.1, g kv.2)) := by
  rw [jsEntries, jsEntries, List.map_append]
  congr 1
  · rw [List.filter_map,
      ← List.map_insertionSort (s := fun p q : String × β => keyNatVal p.1 ≤ keyNatVal q.1)
        (r := fun p q : String × α => keyNatVal p.1 ≤ keyNatVal q.1)
        (fun kv => (kv.1, g kv.2)) _ (fun a _ b _ => Iff.rfl)]
    rfl
  · rw [List.filter_map]
    rfl

/-- C6 as stated is false on the code: selecting the missing column `"b"`
produces the object `{}` — the key is silently omitted, not serialized as
`null` — and selecting zero columns exports the full record instead of an
empty object. -/
theorem C6_counterexample :
    downloadJSONString [[("a", "x")]] ["b"] = some "[\n  \x7b\x7d\n]" ∧
    downloadJSONString [[("a", "x")]] ["b"] ≠
      some "[\n  \x7b\n    \"b\": null\n  \x7d\n]" ∧
    downloadJSONString [[("a", "x")]] [] =
      some "[\n  \x7b\n    \"a\": \"x\"\n  \x7d\n]" := by
  exact ⟨by decide, by decide, by decide⟩

/-- C6 as amended: with a non-empty selection each exported object holds
exactly the distinct selected columns that are present in the record —
keys in `JSON.stringify` property-enumeration order (array-index-like
first ascending, then selection order), missing columns' keys omitted
entirely, never serialized as `null` — with the record's values; with an
empty selection the full records are exported, again in enumeration
order. -/
theorem C6_json_amended (rows : List (List (String × String))) (sel : List String)
    (hrows : rows ≠ []) :
    (sel ≠ [] → downloadJSONString rows sel =
      some (renderArr (rows.map (fun r =>
        ((jsKeysOrder (dedupFirst sel)).filter (fun c => (jsGet c r).isSome)).map
          (fun c => (c, (jsGet c r).getD "")))))) ∧
    downloadJSONString rows [] =
      some (renderArr (rows.map (fun r => jsEntries r))) := by
  have hre : rows.isEmpty = false := by
    simpa [List.isEmpty_iff] using hrows
  constructor
  · intro hsel
    rw [downloadJSONString, if_neg (by rw [hre]; simp)]
    rw [if_pos (by simpa [List.isEmpty_iff] using hsel)]
    rw [renderArrOpt]
    congr 1
    congr 1
    rw [List.map_map]
    apply List.map_congr_left
    intro r _
    rw [Function.comp_apply, keyFold_eq (fun c => jsGet c r) sel,
      jsEntries_map_keyed (fun c => jsGet c r) (dedupFirst sel)]
    exact filterMap_restrict (jsKeysOrder (dedupFirst sel)) r
  · rw [downloadJSONString, if_neg (by rw [hre]; simp)]
    rw [if_neg (by decide)]
    rw [renderArrOpt]
    congr 1
    congr 1
    rw [List.map_map]
    apply List.map_congr_left
    intro r _
    rw [Function.comp_apply, jsEntries_map_snd some r]
    exact filterMap_full (jsEntries r)

theorem C6_json_amended_witness :
    downloadJSONString [[("a", "x")]] ["a"] =
      some (renderArr (([[("a", "x")]] : List (List (String × String))).map (fun r =>
        ((jsKeysOrder (dedupFirst ["a"])).filter (fun c => (jsGet c r).isSome)).map
          (fun c => (c, (jsGet c r).getD ""))))) :=
  (C6_json_amended [[("a", "x")]] ["a"] (by simp)).1 (by simp)

end AemDash
